import Mathlib

/-!
Verification of the ATR trailing-stop visualizer's calculation engine and
frontend data wiring.

Prices are modelled as rationals (ℚ): the engine's arithmetic consists of
additions, subtractions, multiplications, divisions by the period, `max` and
absolute values, all of which are exact over ℚ.

The backend calculation engine (`backend/app/services.py`) is not among the
available sources — only its description in the repository's CLAUDE.md and the
specification.  Definitions for it are therefore modelled from the spec, as
their doc comments state.  The frontend TypeScript (`App.tsx`,
`api/client.ts`, `InputForm.tsx`, `StockChart.tsx`) is available and is
embedded directly.
-/

namespace TrailingStopVisualizer

/-- One OHLCV price bar (spec §3 `Bar`).  Dates are abstracted to naturals
(the engine only ever compares them for equality and keeps them ordered). -/
structure Bar where
  date : ℕ
  open_ : ℚ
  high : ℚ
  low : ℚ
  close : ℚ
  volume : ℕ
deriving Repr, DecidableEq

/-- Modelled from the spec: the backend TrueRangeCalculator
(`backend/app/services.py`, absent from the sources; CLAUDE.md line 64 and
spec §4.1) — `TR = max(High-Low, |High-PrevClose|, |Low-PrevClose|)`. -/
def trueRange (prev cur : Bar) : ℚ :=
  max (cur.high - cur.low) (max |cur.high - prev.close| |cur.low - prev.close|)

/-- Modelled from the spec: the True-Range series (spec §3, §4.1) — one value
per bar from index 1 onward; `none` at index 0 (no previous close). -/
def trAt (bars : List Bar) (i : ℕ) : Option ℚ :=
  match i with
  | 0 => none
  | j + 1 =>
    match bars[j]?, bars[j + 1]? with
    | some prev, some cur => some (trueRange prev cur)
    | _, _ => none

/-- Modelled from the spec: the AtrSmoother (spec §4.2, absent backend
`calculate_atr_trailing_stop`).  Wilder's smoothing with `alpha = 1/period`:
`ATR[period]` is the simple mean of `TR[1..period]`; for `i > period`,
`ATR[i] = alpha*TR[i] + (1-alpha)*ATR[i-1]`; `none` before index `period`
and beyond the series. -/
def atrAt (period : ℕ) (bars : List Bar) : ℕ → Option ℚ
  | 0 => none
  | i + 1 =>
    if i + 1 < period ∨ period = 0 ∨ bars.length ≤ i + 1 then none
    else if i + 1 = period then
      some ((((List.range period).map fun k => (trAt bars (k + 1)).getD 0).sum)
        / (period : ℚ))
    else
      match atrAt period bars i, trAt bars (i + 1) with
      | some prev, some t =>
        some ((1 / (period : ℚ)) * t + (1 - 1 / (period : ℚ)) * prev)
      | _, _ => none

/-- Close price of bar `i` (0 when out of range; theorems always carry the
in-range bound). -/
def closeOf (bars : List Bar) (i : ℕ) : ℚ :=
  match bars[i]? with
  | some b => b.close
  | none => 0

/-- Modelled from the spec: the RatchetTrailingStopEngine (spec §4.3,
CLAUDE.md lines 66-67, absent backend).  Where ATR is defined,
`basicStop = close - ATR*multiplier`; first eligible bar takes `basicStop`;
afterwards: previous close above previous stop (tracking) ratchets with
`max(prevStop, basicStop)`, otherwise (stopped-out) resets to `basicStop`. -/
def stopAt (period : ℕ) (mult : ℚ) (bars : List Bar) : ℕ → Option ℚ
  | 0 => (atrAt period bars 0).map fun a => closeOf bars 0 - a * mult
  | i + 1 =>
    match atrAt period bars (i + 1) with
    | none => none
    | some a =>
      let bs := closeOf bars (i + 1) - a * mult
      match stopAt period mult bars i with
      | none => some bs
      | some ps => if ps < closeOf bars i then some (max ps bs) else some bs

lemma trAt_eq_some (bars : List Bar) (i : ℕ) (h1 : 1 ≤ i)
    (h2 : i < bars.length) :
    ∃ t, trAt bars i = some t := by
  cases i with
  | zero => omega
  | succ j =>
    have hj : j < bars.length := by omega
    refine ⟨trueRange (bars.get ⟨j, hj⟩) (bars.get ⟨j + 1, h2⟩), ?_⟩
    simp [trAt, List.getElem?_eq_getElem hj, List.getElem?_eq_getElem h2]

lemma atrAt_isSome (period : ℕ) (bars : List Bar) (hp : 1 ≤ period) :
    ∀ i, (atrAt period bars i).isSome ↔ period ≤ i ∧ i < bars.length := by
  intro i
  induction i with
  | zero => simp [atrAt]; omega
  | succ j ih =>
    by_cases hguard : j + 1 < period ∨ period = 0 ∨ bars.length ≤ j + 1
    · rw [atrAt, if_pos hguard]
      simp only [Option.isSome_none, Bool.false_eq_true, false_iff]
      omega
    · push_neg at hguard
      by_cases hseed : j + 1 = period
      · rw [atrAt, if_neg (by push_neg; exact hguard), if_pos hseed]
        simp only [Option.isSome_some, true_iff]
        omega
      · rw [atrAt, if_neg (by push_neg; exact hguard), if_neg hseed]
        have hprev : (atrAt period bars j).isSome := by
          rw [ih]; omega
        obtain ⟨prev, hprev⟩ := Option.isSome_iff_exists.mp hprev
        obtain ⟨t, ht⟩ := trAt_eq_some bars (j + 1) (by omega) (by omega)
        rw [hprev, ht]
        simp only [Option.isSome_some, true_iff]
        omega

lemma atrAt_eq_none_of_lt (period : ℕ) (bars : List Bar) (hp : 1 ≤ period)
    (i : ℕ) (h : i < period) : atrAt period bars i = none := by
  have := atrAt_isSome period bars hp i
  cases hA : atrAt period bars i with
  | none => rfl
  | some a => rw [hA] at this; simp at this; omega

lemma stopAt_isSome (period : ℕ) (mult : ℚ) (bars : List Bar)
    (hp : 1 ≤ period) :
    ∀ i, (stopAt period mult bars i).isSome ↔ (atrAt period bars i).isSome := by
  intro i
  cases i with
  | zero =>
    rw [stopAt, atrAt_eq_none_of_lt period bars hp 0 (by omega)]
    simp
  | succ j =>
    rw [stopAt]
    cases hA : atrAt period bars (j + 1) with
    | none => simp
    | some a =>
      simp only [Option.isSome_some, iff_true]
      cases hS : stopAt period mult bars j with
      | none => simp
      | some ps =>
        dsimp only
        split <;> simp

lemma stopAt_succ_eq (period : ℕ) (mult : ℚ) (bars : List Bar) (j : ℕ)
    (a : ℚ) (ha : atrAt period bars (j + 1) = some a) :
    stopAt period mult bars (j + 1) =
      match stopAt period mult bars j with
      | none => some (closeOf bars (j + 1) - a * mult)
      | some ps =>
        if ps < closeOf bars j then
          some (max ps (closeOf bars (j + 1) - a * mult))
        else some (closeOf bars (j + 1) - a * mult) := by
  rw [stopAt, ha]

lemma stopAt_succ_of_some (period : ℕ) (mult : ℚ) (bars : List Bar) (j : ℕ)
    (a ps : ℚ) (ha : atrAt period bars (j + 1) = some a)
    (hs : stopAt period mult bars j = some ps) :
    stopAt period mult bars (j + 1) =
      if ps < closeOf bars j then
        some (max ps (closeOf bars (j + 1) - a * mult))
      else some (closeOf bars (j + 1) - a * mult) := by
  rw [stopAt, ha, hs]

lemma stopAt_eq_none_of_lt (period : ℕ) (mult : ℚ) (bars : List Bar)
    (hp : 1 ≤ period) (i : ℕ) (h : i < period) :
    stopAt period mult bars i = none := by
  have h1 := stopAt_isSome period mult bars hp i
  have h2 := atrAt_eq_none_of_lt period bars hp i h
  cases hS : stopAt period mult bars i with
  | none => rfl
  | some s => rw [hS, h2] at h1; simp at h1

/-- A concrete bar used by witness theorems. -/
def demoBar (d : ℕ) (h l c : ℚ) : Bar :=
  ⟨d, 0, h, l, c, 0⟩

/-- A concrete bar sequence used by witness theorems. -/
def demoBars : List Bar :=
  [demoBar 0 10 8 9, demoBar 1 12 9 11, demoBar 2 13 10 12, demoBar 3 11 9 10]

/-- C8: for every pair of consecutive bars `(i-1, i)` with `i ≥ 1`, the True
Range is `TR[i] = max(high[i]-low[i], |high[i]-close[i-1]|,
|low[i]-close[i-1]|)`, and no TR value is defined for index 0. -/
theorem C8_true_range (bars : List Bar) (i : ℕ) (h1 : 1 ≤ i)
    (h2 : i < bars.length) :
    (∃ prev cur, bars[i - 1]? = some prev ∧ bars[i]? = some cur ∧
      trAt bars i = some (max (cur.high - cur.low)
        (max |cur.high - prev.close| |cur.low - prev.close|))) ∧
    trAt bars 0 = none := by
  constructor
  · cases i with
    | zero => omega
    | succ j =>
      have hj : j < bars.length := by omega
      refine ⟨bars.get ⟨j, hj⟩, bars.get ⟨j + 1, h2⟩, ?_, ?_, ?_⟩
      · simp [List.getElem?_eq_getElem hj]
      · simp [List.getElem?_eq_getElem h2]
      · simp [trAt, List.getElem?_eq_getElem hj, List.getElem?_eq_getElem h2,
          trueRange]
  · rfl

/-- Witness for C8 at `i = 1` on the concrete bar list. -/
theorem C8_true_range_witness :
    1 ≤ 1 ∧ 1 < demoBars.length ∧
    ((∃ prev cur, demoBars[1 - 1]? = some prev ∧ demoBars[1]? = some cur ∧
      trAt demoBars 1 = some (max (cur.high - cur.low)
        (max |cur.high - prev.close| |cur.low - prev.close|))) ∧
    trAt demoBars 0 = none) :=
  ⟨le_refl 1, by decide, C8_true_range demoBars 1 (le_refl 1) (by decide)⟩

/-- C2: for every bar sequence of length at least `period + 1`, the first
defined ATR value `ATR[period]` is the simple arithmetic mean of the first
`period` True Range values `TR[1..period]` (each of which is defined); ATR is
undefined (`none`) at all earlier indices; and for every in-range
`i > period`, `ATR[i] = alpha*TR[i] + (1-alpha)*ATR[i-1]` with
`alpha = 1/period`. -/
theorem C2_atr_smoothing (period : ℕ) (bars : List Bar) (hp : 1 ≤ period)
    (hlen : period + 1 ≤ bars.length) :
    (atrAt period bars period =
      some ((((List.range period).map fun k => (trAt bars (k + 1)).getD 0).sum)
        / (period : ℚ)) ∧
      ∀ k < period, ∃ t, trAt bars (k + 1) = some t) ∧
    (∀ i < period, atrAt period bars i = none) ∧
    (∀ i, period < i → i < bars.length →
      ∃ prev t, atrAt period bars (i - 1) = some prev ∧ trAt bars i = some t ∧
        atrAt period bars i =
          some ((1 / (period : ℚ)) * t + (1 - 1 / (period : ℚ)) * prev)) := by
  refine ⟨⟨?_, ?_⟩, ?_, ?_⟩
  · cases period with
    | zero => omega
    | succ p =>
      rw [atrAt, if_neg (by omega), if_pos rfl]
  · intro k hk
    exact trAt_eq_some bars (k + 1) (by omega) (by omega)
  · intro i hi
    exact atrAt_eq_none_of_lt period bars hp i hi
  · intro i hi hilen
    cases i with
    | zero => omega
    | succ j =>
      have hprev : (atrAt period bars j).isSome := by
        rw [atrAt_isSome period bars hp]; omega
      obtain ⟨prev, hprev⟩ := Option.isSome_iff_exists.mp hprev
      obtain ⟨t, ht⟩ := trAt_eq_some bars (j + 1) (by omega) hilen
      refine ⟨prev, t, by simpa using hprev, ht, ?_⟩
      rw [atrAt, if_neg (by omega), if_neg (by omega), hprev, ht]

/-- Witness for C2 at `period = 2` on the concrete bar list. -/
theorem C2_atr_smoothing_witness :
    1 ≤ 2 ∧ 2 + 1 ≤ demoBars.length ∧
    ((atrAt 2 demoBars 2 =
      some ((((List.range 2).map fun k => (trAt demoBars (k + 1)).getD 0).sum)
        / (2 : ℚ)) ∧
      ∀ k < 2, ∃ t, trAt demoBars (k + 1) = some t) ∧
    (∀ i < 2, atrAt 2 demoBars i = none) ∧
    (∀ i, 2 < i → i < demoBars.length →
      ∃ prev t, atrAt 2 demoBars (i - 1) = some prev ∧
        trAt demoBars i = some t ∧
        atrAt 2 demoBars i =
          some ((1 / (2 : ℚ)) * t + (1 - 1 / (2 : ℚ)) * prev))) :=
  ⟨by decide, by decide, C2_atr_smoothing 2 demoBars (by decide) (by decide)⟩

/-- C1: the trailing stop satisfies the ratchet transition rule.  At the first
ATR-defined bar (`i = period`) the stop equals `basicStop`; for every later
in-range bar `i`, with `basicStop[i] = close[i] - ATR[i]*multiplier`: if
`close[i-1] > stop[i-1]` (tracking) then `stop[i] = max(stop[i-1],
basicStop[i])` and the stop never decreases; if `close[i-1] ≤ stop[i-1]`
(stopped-out) then `stop[i] = basicStop[i]` exactly. -/
theorem C1_ratchet_transition (period : ℕ) (mult : ℚ) (bars : List Bar)
    (hp : 1 ≤ period) (hlen : period < bars.length) :
    (∃ a, atrAt period bars period = some a ∧
      stopAt period mult bars period = some (closeOf bars period - a * mult)) ∧
    (∀ i, period < i → i < bars.length →
      ∃ s a, stopAt period mult bars (i - 1) = some s ∧
        atrAt period bars i = some a ∧
        (closeOf bars (i - 1) > s →
          stopAt period mult bars i =
            some (max s (closeOf bars i - a * mult)) ∧
          ∀ s', stopAt period mult bars i = some s' → s ≤ s') ∧
        (closeOf bars (i - 1) ≤ s →
          stopAt period mult bars i = some (closeOf bars i - a * mult))) := by
  constructor
  · have hA : (atrAt period bars period).isSome := by
      rw [atrAt_isSome period bars hp]; omega
    obtain ⟨a, ha⟩ := Option.isSome_iff_exists.mp hA
    refine ⟨a, ha, ?_⟩
    cases period with
    | zero => omega
    | succ p =>
      rw [stopAt_succ_eq (p + 1) mult bars p a ha,
        stopAt_eq_none_of_lt (p + 1) mult bars hp p (by omega)]
  · intro i hi hilen
    cases i with
    | zero => omega
    | succ j =>
      have hS : (stopAt period mult bars j).isSome := by
        rw [stopAt_isSome period mult bars hp, atrAt_isSome period bars hp]
        omega
      obtain ⟨s, hs⟩ := Option.isSome_iff_exists.mp hS
      have hA : (atrAt period bars (j + 1)).isSome := by
        rw [atrAt_isSome period bars hp]; omega
      obtain ⟨a, ha⟩ := Option.isSome_iff_exists.mp hA
      refine ⟨s, a, hs, ha, ?_, ?_⟩
      · intro hgt
        have hgt' : s < closeOf bars j := hgt
        have hstep : stopAt period mult bars (j + 1) =
            some (max s (closeOf bars (j + 1) - a * mult)) := by
          rw [stopAt_succ_of_some period mult bars j a s ha hs, if_pos hgt']
        refine ⟨hstep, ?_⟩
        intro s' hs'
        rw [hstep] at hs'
        simp only [Option.some.injEq] at hs'
        rw [← hs']
        exact le_max_left _ _
      · intro hle
        have hle' : closeOf bars j ≤ s := hle
        rw [stopAt_succ_of_some period mult bars j a s ha hs,
          if_neg (not_lt.mpr hle')]

/-- Witness for C1 at `period = 1`, `multiplier = 2` on the concrete bar
list. -/
theorem C1_ratchet_transition_witness :
    1 ≤ 1 ∧ 1 < demoBars.length ∧
    ((∃ a, atrAt 1 demoBars 1 = some a ∧
      stopAt 1 (2 : ℚ) demoBars 1 = some (closeOf demoBars 1 - a * 2)) ∧
    (∀ i, 1 < i → i < demoBars.length →
      ∃ s a, stopAt 1 (2 : ℚ) demoBars (i - 1) = some s ∧
        atrAt 1 demoBars i = some a ∧
        (closeOf demoBars (i - 1) > s →
          stopAt 1 (2 : ℚ) demoBars i =
            some (max s (closeOf demoBars i - a * 2)) ∧
          ∀ s', stopAt 1 (2 : ℚ) demoBars i = some s' → s ≤ s') ∧
        (closeOf demoBars (i - 1) ≤ s →
          stopAt 1 (2 : ℚ) demoBars i =
            some (closeOf demoBars i - a * 2)))) :=
  ⟨le_refl 1, by decide,
    C1_ratchet_transition 1 (2 : ℚ) demoBars (le_refl 1) (by decide)⟩

/-- Errors of the calculation engine (spec §7). -/
inductive EngineError where
  | insufficientData
  | entryNotFound
deriving Repr, DecidableEq

/-- Modelled from the spec: the ATR/trailing-stop computation entry point
(absent backend `calculate_atr_trailing_stop`); spec §4.2/§7 — fails with
`InsufficientDataError` when the series has fewer than `period + 1` bars,
otherwise produces the per-bar trailing-stop series. -/
def calculateAtrTrailingStop (period : ℕ) (mult : ℚ) (bars : List Bar) :
    Except EngineError (List (Option ℚ)) :=
  if bars.length < period + 1 then .error .insufficientData
  else .ok ((List.range bars.length).map (stopAt period mult bars))

/-- C9: with fewer than `period + 1` bars the ATR computation fails with
`InsufficientDataError` and produces no output; with at least `period + 1`
bars it does not raise this error and produces the stop series. -/
theorem C9_insufficient_data (period : ℕ) (mult : ℚ) (bars : List Bar) :
    (bars.length < period + 1 →
      calculateAtrTrailingStop period mult bars =
        .error .insufficientData) ∧
    (period + 1 ≤ bars.length →
      calculateAtrTrailingStop period mult bars =
        .ok ((List.range bars.length).map (stopAt period mult bars))) := by
  constructor
  · intro h
    rw [calculateAtrTrailingStop, if_pos h]
  · intro h
    rw [calculateAtrTrailingStop, if_neg (not_lt.mpr h)]

/-- Witness for C9: 4 bars are too few for period 5 and enough for
period 2. -/
theorem C9_insufficient_data_witness :
    demoBars.length < 5 + 1 ∧ 2 + 1 ≤ demoBars.length ∧
    calculateAtrTrailingStop 5 (2 : ℚ) demoBars =
      .error .insufficientData ∧
    calculateAtrTrailingStop 2 (2 : ℚ) demoBars =
      .ok ((List.range demoBars.length).map (stopAt 2 (2 : ℚ) demoBars)) :=
  ⟨by decide, by decide,
    (C9_insufficient_data 5 (2 : ℚ) demoBars).1 (by decide),
    (C9_insufficient_data 2 (2 : ℚ) demoBars).2 (by decide)⟩

/-- A per-bar data point handed to the chart (`ChartDataPoint` of
`StockChart.tsx`): `stop_price` is `none` where ATR is undefined. -/
structure ChartDataPoint where
  date : ℕ
  open_ : ℚ
  high : ℚ
  low : ℚ
  close : ℚ
  volume : ℕ
  stop_price : Option ℚ
deriving Repr, DecidableEq

/-- The sell-signal filter of `StockChart.tsx` (both chart variants):
`d.stop_price !== null && d.close < d.stop_price`. -/
def isSellSignal (d : ChartDataPoint) : Bool :=
  match d.stop_price with
  | some s => decide (d.close < s)
  | none => false

/-- The `sellSignalData` series of `StockChart.tsx`: the bars passing the sell-signal
filter, mapped to scatter points `(x, y) = (date, close)`. -/
def sellSignalData (data : List ChartDataPoint) : List (ℕ × ℚ) :=
  (data.filter isSellSignal).map fun d => (d.date, d.close)

/-- C5: a bar is marked as a sell signal iff its `stop_price` is defined and
`close < stop` strictly; bars with null `stop_price` are never sell signals;
and the emitted markers are exactly the signal bars with y value the bar's
close. -/
theorem C5_sell_signal (data : List ChartDataPoint) :
    (∀ d, isSellSignal d = true ↔
      ∃ s, d.stop_price = some s ∧ d.close < s) ∧
    (∀ d, d.stop_price = none → isSellSignal d = false) ∧
    (∀ p, p ∈ sellSignalData data ↔
      ∃ d, d ∈ data ∧ isSellSignal d = true ∧ p = (d.date, d.close)) := by
  refine ⟨?_, ?_, ?_⟩
  · intro d
    cases h : d.stop_price with
    | none => simp [isSellSignal, h]
    | some s => simp [isSellSignal, h]
  · intro d h
    simp [isSellSignal, h]
  · intro p
    simp only [sellSignalData, List.mem_map, List.mem_filter]
    constructor
    · rintro ⟨d, ⟨hd, hsig⟩, hp⟩
      exact ⟨d, hd, hsig, hp.symm⟩
    · rintro ⟨d, hd, hsig, hp⟩
      exact ⟨d, ⟨hd, hsig⟩, hp.symm⟩

/-- A concrete chart-point list used by witness theorems: index 0 has no
stop, index 1 closes above its stop, index 2 closes below its stop. -/
def demoPoints : List ChartDataPoint :=
  [⟨0, 0, 10, 8, 9, 0, none⟩, ⟨1, 0, 12, 9, 11, 0, some 10⟩,
   ⟨2, 0, 13, 10, 9, 0, some 10⟩]

/-- Witness for C5 on the concrete chart points (only bar 2 signals). -/
theorem C5_sell_signal_witness :
    sellSignalData demoPoints = [(2, 9)] ∧
    ((∀ d, isSellSignal d = true ↔
      ∃ s, d.stop_price = some s ∧ d.close < s) ∧
    (∀ d, d.stop_price = none → isSellSignal d = false) ∧
    (∀ p, p ∈ sellSignalData demoPoints ↔
      ∃ d, d ∈ demoPoints ∧ isSellSignal d = true ∧
        p = (d.date, d.close))) :=
  ⟨by decide, C5_sell_signal demoPoints⟩

/-- The trade-type keys of `InputForm.tsx`: the buttons render exactly
`['A', 'M', 'B']`. -/
inductive TradeType where
  | A
  | M
  | B
deriving Repr, DecidableEq

/-- A trade type's fixed parameter bundle (one `TRADE_TYPE_DEFAULTS` entry in
`InputForm.tsx`; the `label`/`desc` fields are display-only and omitted). -/
structure TradeTypeBundle where
  period : ℕ
  multiplier : ℚ
deriving Repr, DecidableEq

/-- The `TRADE_TYPE_DEFAULTS` lookup of `InputForm.tsx`. -/
def TRADE_TYPE_DEFAULTS : TradeType → TradeTypeBundle
  | .A => ⟨14, 3⟩
  | .M => ⟨20, 5 / 2⟩
  | .B => ⟨22, 2⟩

/-- The `DEFAULT_PERIOD` constant of `InputForm.tsx`. -/
def DEFAULT_PERIOD : ℕ := 14

/-- The `DEFAULT_MULTIPLIER` constant of `InputForm.tsx`. -/
def DEFAULT_MULTIPLIER : ℚ := 5 / 2

/-- The form state read and written by `handleTradeTypeClick`. -/
structure FormState where
  tradeType : Option TradeType
  period : ℕ
  multiplier : ℚ
deriving Repr, DecidableEq

/-- The `handleTradeTypeClick` handler of `InputForm.tsx`: clicking the already-selected
type deselects it and restores the defaults; clicking a different type
selects it and sets period/multiplier from its bundle. -/
def handleTradeTypeClick (s : FormState) (t : TradeType) : FormState :=
  if s.tradeType = some t then
    ⟨none, DEFAULT_PERIOD, DEFAULT_MULTIPLIER⟩
  else
    ⟨some t, (TRADE_TYPE_DEFAULTS t).period, (TRADE_TYPE_DEFAULTS t).multiplier⟩

/-- C7: the trade-type selection is a pure configuration lookup — A maps to
period 14 / multiplier 3.0, M to 20 / 2.5, B to 22 / 2.0 — and selecting a
trade type (clicking one that is not currently selected) sets period and
multiplier to exactly that bundle's values. -/
theorem C7_trade_type_lookup :
    TRADE_TYPE_DEFAULTS .A = ⟨14, 3⟩ ∧
    TRADE_TYPE_DEFAULTS .M = ⟨20, 5 / 2⟩ ∧
    TRADE_TYPE_DEFAULTS .B = ⟨22, 2⟩ ∧
    ∀ s t, s.tradeType ≠ some t →
      handleTradeTypeClick s t =
        ⟨some t, (TRADE_TYPE_DEFAULTS t).period,
          (TRADE_TYPE_DEFAULTS t).multiplier⟩ := by
  refine ⟨rfl, rfl, rfl, ?_⟩
  intro s t h
  rw [handleTradeTypeClick, if_neg h]

/-- Witness for C7: selecting A from the default (unselected) state. -/
theorem C7_trade_type_lookup_witness :
    (⟨none, 14, 5 / 2⟩ : FormState).tradeType ≠ some TradeType.A ∧
    handleTradeTypeClick ⟨none, 14, 5 / 2⟩ TradeType.A =
      ⟨some TradeType.A, (TRADE_TYPE_DEFAULTS TradeType.A).period,
        (TRADE_TYPE_DEFAULTS TradeType.A).multiplier⟩ :=
  ⟨by decide,
    C7_trade_type_lookup.2.2.2 ⟨none, 14, 5 / 2⟩ TradeType.A (by decide)⟩

/-- Client-side exit-strategy parameters (`ExitStrategyParams` in
`api/client.ts`): every field is optional. -/
structure ExitStrategyParams where
  trade_type : Option String
  entry_price : Option ℚ
  entry_date : Option String
  first_tp_ratio : Option ℚ
deriving Repr, DecidableEq

/-- JavaScript truthiness of an optional string: absent/null and the empty
string are falsy. -/
def truthyStr : Option String → Bool
  | some s => s != ""
  | none => false

/-- JavaScript truthiness of an optional number: absent/null and 0 are falsy
(NaN does not arise over ℚ). -/
def truthyNum : Option ℚ → Bool
  | some q => q != 0
  | none => false

/-- The query-parameter record sent to GET /analyze by the axios client: the
five base parameters plus the optional exit-strategy fields, `none` when not
added to the request. -/
structure QueryParams where
  ticker : String
  period : ℕ
  multiplier : ℚ
  days : ℕ
  interval : String
  trade_type : Option String
  entry_price : Option ℚ
  entry_date : Option String
  first_tp_ratio : Option ℚ
deriving Repr, DecidableEq

/-- The `analyzeStock` client of `api/client.ts` (the query-parameter construction):
each exit-strategy field is added exactly when the optional chain
`exitStrategy?.field` is truthy. -/
def analyzeStock (ticker : String) (period : ℕ) (multiplier : ℚ) (days : ℕ)
    (interval : String) (exitStrategy : Option ExitStrategyParams) :
    QueryParams where
  ticker := ticker
  period := period
  multiplier := multiplier
  days := days
  interval := interval
  trade_type :=
    if truthyStr (exitStrategy.bind ExitStrategyParams.trade_type) then
      exitStrategy.bind ExitStrategyParams.trade_type
    else none
  entry_price :=
    if truthyNum (exitStrategy.bind ExitStrategyParams.entry_price) then
      exitStrategy.bind ExitStrategyParams.entry_price
    else none
  entry_date :=
    if truthyStr (exitStrategy.bind ExitStrategyParams.entry_date) then
      exitStrategy.bind ExitStrategyParams.entry_date
    else none
  first_tp_ratio :=
    if truthyNum (exitStrategy.bind ExitStrategyParams.first_tp_ratio) then
      exitStrategy.bind ExitStrategyParams.first_tp_ratio
    else none

/-- The exit-strategy inputs collected by `InputForm.tsx` and handed to
`App.tsx` (`ExitStrategyInputs`): `tradeType` is nullable, `entryPrice` is
parsed-or-null, `entryDate` a (possibly empty) string, `firstTpRatio` a
number. -/
structure ExitStrategyInputs where
  tradeType : Option String
  entryPrice : Option ℚ
  entryDate : String
  firstTpRatio : ℚ
deriving Repr, DecidableEq

/-- The exit-strategy argument formation in `App.tsx` `handleAnalyze`:
`if (exitInputs.tradeType && exitInputs.entryPrice && exitInputs.entryPrice
> 0 && exitInputs.entryDate)` the `ExitStrategyParams` object is built with
all four fields, otherwise it is left `undefined`. -/
def handleAnalyzeExitStrategy (x : ExitStrategyInputs) :
    Option ExitStrategyParams :=
  if truthyStr x.tradeType ∧ truthyNum x.entryPrice ∧
      0 < x.entryPrice.getD 0 ∧ x.entryDate ≠ "" then
    some ⟨x.tradeType, x.entryPrice, some x.entryDate, some x.firstTpRatio⟩
  else none

/-- C10: the client adds each of the four exit-strategy query parameters
exactly when its value is truthy, so a request built by this client never
carries `entry_price = 0` or `first_tp_ratio = 0` (a zero is silently
omitted); and `App.tsx` forms the exit-strategy argument only when
`tradeType`, a positive `entryPrice` and a non-empty `entryDate` are all
present. -/
theorem C10_truthy_query_params (ticker : String) (period : ℕ)
    (multiplier : ℚ) (days : ℕ) (interval : String)
    (e : ExitStrategyParams) :
    ((truthyStr e.trade_type = true →
      (analyzeStock ticker period multiplier days interval
        (some e)).trade_type = e.trade_type) ∧
     (truthyStr e.trade_type = false →
      (analyzeStock ticker period multiplier days interval
        (some e)).trade_type = none)) ∧
    ((truthyNum e.entry_price = true →
      (analyzeStock ticker period multiplier days interval
        (some e)).entry_price = e.entry_price) ∧
     (truthyNum e.entry_price = false →
      (analyzeStock ticker period multiplier days interval
        (some e)).entry_price = none)) ∧
    ((truthyStr e.entry_date = true →
      (analyzeStock ticker period multiplier days interval
        (some e)).entry_date = e.entry_date) ∧
     (truthyStr e.entry_date = false →
      (analyzeStock ticker period multiplier days interval
        (some e)).entry_date = none)) ∧
    ((truthyNum e.first_tp_ratio = true →
      (analyzeStock ticker period multiplier days interval
        (some e)).first_tp_ratio = e.first_tp_ratio) ∧
     (truthyNum e.first_tp_ratio = false →
      (analyzeStock ticker period multiplier days interval
        (some e)).first_tp_ratio = none)) ∧
    (∀ v, (analyzeStock ticker period multiplier days interval
        (some e)).entry_price = some v → v ≠ 0) ∧
    (∀ v, (analyzeStock ticker period multiplier days interval
        (some e)).first_tp_ratio = some v → v ≠ 0) ∧
    (∀ x p, handleAnalyzeExitStrategy x = some p →
      (∃ tt, x.tradeType = some tt ∧ tt ≠ "") ∧
      (∃ ep, x.entryPrice = some ep ∧ 0 < ep) ∧ x.entryDate ≠ "") := by
  refine ⟨⟨?_, ?_⟩, ⟨?_, ?_⟩, ⟨?_, ?_⟩, ⟨?_, ?_⟩, ?_, ?_, ?_⟩
  · intro h; simp [analyzeStock, Option.bind, h]
  · intro h; simp [analyzeStock, Option.bind, h]
  · intro h; simp [analyzeStock, Option.bind, h]
  · intro h; simp [analyzeStock, Option.bind, h]
  · intro h; simp [analyzeStock, Option.bind, h]
  · intro h; simp [analyzeStock, Option.bind, h]
  · intro h; simp [analyzeStock, Option.bind, h]
  · intro h; simp [analyzeStock, Option.bind, h]
  · intro v hv
    by_cases h : truthyNum e.entry_price = true
    · cases he : e.entry_price with
      | none => rw [he] at h; simp [truthyNum] at h
      | some w =>
        rw [he] at h
        simp only [truthyNum, bne_iff_ne, ne_eq, decide_eq_true_eq] at h
        simp [analyzeStock, Option.bind, truthyNum, he, h] at hv
        rw [← hv]; exact h
    · simp [analyzeStock, Option.bind, eq_false_of_ne_true h] at hv
  · intro v hv
    by_cases h : truthyNum e.first_tp_ratio = true
    · cases he : e.first_tp_ratio with
      | none => rw [he] at h; simp [truthyNum] at h
      | some w =>
        rw [he] at h
        simp only [truthyNum, bne_iff_ne, ne_eq, decide_eq_true_eq] at h
        simp [analyzeStock, Option.bind, truthyNum, he, h] at hv
        rw [← hv]; exact h
    · simp [analyzeStock, Option.bind, eq_false_of_ne_true h] at hv
  · intro x p hp
    rw [handleAnalyzeExitStrategy] at hp
    split at hp
    · rename_i hc
      obtain ⟨h1, h2, h3, h4⟩ := hc
      refine ⟨?_, ?_, h4⟩
      · cases ht : x.tradeType with
        | none => rw [ht] at h1; simp [truthyStr] at h1
        | some tt =>
          rw [ht] at h1
          simp only [truthyStr, bne_iff_ne, ne_eq, decide_eq_true_eq] at h1
          exact ⟨tt, rfl, h1⟩
      · cases hep : x.entryPrice with
        | none => rw [hep] at h3; simp at h3
        | some ep =>
          rw [hep] at h3
          simp only [Option.getD_some] at h3
          exact ⟨ep, rfl, h3⟩
    · exact absurd hp (by simp)

/-- Witness for C10 at a concrete parameter bundle whose `entry_price` and
`first_tp_ratio` are 0 (both get dropped from the query). -/
theorem C10_truthy_query_params_witness :
    (analyzeStock "AAPL" 14 3 365 "1d"
      (some ⟨some "A", some 0, some "2024-01-02", some 0⟩)).entry_price
        = none ∧
    (analyzeStock "AAPL" 14 3 365 "1d"
      (some ⟨some "A", some 0, some "2024-01-02", some 0⟩)).first_tp_ratio
        = none ∧
    (analyzeStock "AAPL" 14 3 365 "1d"
      (some ⟨some "A", some 0, some "2024-01-02", some 0⟩)).trade_type
        = (⟨some "A", some 0, some "2024-01-02", some 0⟩ :
            ExitStrategyParams).trade_type :=
  ⟨(C10_truthy_query_params "AAPL" 14 3 365 "1d"
      ⟨some "A", some 0, some "2024-01-02", some 0⟩).2.1.2 (by decide),
   (C10_truthy_query_params "AAPL" 14 3 365 "1d"
      ⟨some "A", some 0, some "2024-01-02", some 0⟩).2.2.2.1.2 (by decide),
   (C10_truthy_query_params "AAPL" 14 3 365 "1d"
      ⟨some "A", some 0, some "2024-01-02", some 0⟩).1.1 (by decide)⟩

/-- A profit-target level (spec §3 `ProfitTargetLevel`). -/
structure ProfitTarget where
  level : ℕ
  target_price : ℚ
  pct_from_entry : ℚ
  atr_multiple : ℚ
  sell_ratio : ℚ
deriving Repr, DecidableEq

/-- A sell event of the simulation (spec §3 `PositionSell`; the display-only
`label` field is omitted).  `level = 0` denotes a stop-loss exit. -/
structure PositionSell where
  date : ℕ
  price : ℚ
  ratio : ℚ
  remaining : ℚ
  level : ℕ
deriving Repr, DecidableEq

/-- Modelled from the spec: one bar's take-profit pass of the ExitSimulator
(spec §4.5, absent backend).  Walks the unfilled ladder in order; each level
whose target the bar's high reaches, while a position remains, is filled at
the target price (spec §8 example) and removed from the ladder; the rest
stays pending.  Returns (emitted sells, still-unfilled levels, remaining). -/
def fillTargets (high : ℚ) (date : ℕ) :
    List ProfitTarget → ℚ → List PositionSell × List ProfitTarget × ℚ
  | [], rem => ([], [], rem)
  | t :: ts, rem =>
    if t.target_price ≤ high ∧ 0 < rem then
      let rest := fillTargets high date ts (rem - t.sell_ratio)
      (⟨date, t.target_price, t.sell_ratio, rem - t.sell_ratio, t.level⟩
          :: rest.1,
        rest.2.1, rest.2.2)
    else
      let rest := fillTargets high date ts rem
      (rest.1, t :: rest.2.1, rest.2.2)

/-- Modelled from the spec: the bar-by-bar loop of the ExitSimulator
(spec §4.5, absent backend).  Called on the bars strictly after the entry
bar.  A closed position (`remaining ≤ 0`) stops iterating; a close at or
below the static entry-basis stop emits a full stop-loss sell (level 0) and
stops; otherwise the take-profit pass runs and iteration continues. -/
def simulate (stopBasis : ℚ) :
    List Bar → List ProfitTarget → ℚ → List PositionSell
  | [], _, _ => []
  | b :: rest, targets, rem =>
    if rem ≤ 0 then []
    else if b.close ≤ stopBasis then
      [⟨b.date, b.close, rem, 0, 0⟩]
    else
      let f := fillTargets b.high b.date targets rem
      f.1 ++ simulate stopBasis rest f.2.1 f.2.2

/-- Modelled from the spec: the ExitSimulator entry point (spec §4.5, absent
backend).  Locates the bar matching the entry date (`EntryNotFoundError` when
none matches) and simulates from the bar strictly after it with
`remaining = 1`. -/
def exitSimulator (bars : List Bar) (targets : List ProfitTarget)
    (stopBasis : ℚ) (entryDate : ℕ) :
    Except EngineError (List PositionSell) :=
  match bars.findIdx? (fun b => b.date == entryDate) with
  | none => .error .entryNotFound
  | some idx => .ok (simulate stopBasis (bars.drop (idx + 1)) targets 1)

/-- C3: in the ExitSimulator, evaluation starts at the bar strictly after the
entry bar — never the entry bar itself — and on every simulated bar the
stop-loss condition is checked before any profit-target fill: a close at or
below the static entry-basis stop with a position remaining emits exactly one
`PositionSell` with level 0, ratio = remaining and remaining 0, and the
simulation stops with no take-profit sell on that bar. -/
theorem C3_stop_loss_priority (stopBasis : ℚ) (b : Bar) (rest bars : List Bar)
    (targets : List ProfitTarget) (rem : ℚ) (entryDate : ℕ) (idx : ℕ)
    (hrem : 0 < rem) (hstop : b.close ≤ stopBasis)
    (hidx : bars.findIdx? (fun bar => bar.date == entryDate) = some idx) :
    simulate stopBasis (b :: rest) targets rem =
      [⟨b.date, b.close, rem, 0, 0⟩] ∧
    exitSimulator bars targets stopBasis entryDate =
      .ok (simulate stopBasis (bars.drop (idx + 1)) targets 1) := by
  constructor
  · rw [simulate, if_neg (not_le.mpr hrem), if_pos hstop]
  · rw [exitSimulator, hidx]

/-- Witness for C3: a bar closing at the stop basis with the full position
still open, inside a two-bar series whose entry bar is index 0. -/
theorem C3_stop_loss_priority_witness :
    (0 : ℚ) < 1 ∧ (demoBar 1 12 9 8).close ≤ (8 : ℚ) ∧
    [demoBar 0 10 8 9, demoBar 1 12 9 8].findIdx?
      (fun bar => bar.date == 0) = some 0 ∧
    simulate (8 : ℚ) [demoBar 1 12 9 8] [] 1 =
      [⟨(demoBar 1 12 9 8).date, (demoBar 1 12 9 8).close, 1, 0, 0⟩] ∧
    exitSimulator [demoBar 0 10 8 9, demoBar 1 12 9 8] [] (8 : ℚ) 0 =
      .ok (simulate (8 : ℚ)
        ([demoBar 0 10 8 9, demoBar 1 12 9 8].drop (0 + 1)) [] 1) :=
  ⟨by decide, by decide, by decide,
    C3_stop_loss_priority (8 : ℚ) (demoBar 1 12 9 8) [] _ [] 1 0 0
      (by decide) (by decide) (by decide)⟩

/-- Sum of the `ratio` field over a sell list. -/
def ratioSum (ss : List PositionSell) : ℚ :=
  (ss.map PositionSell.ratio).sum

/-- Sum of the `sell_ratio` field over a target ladder. -/
def targetsSum (ts : List ProfitTarget) : ℚ :=
  (ts.map ProfitTarget.sell_ratio).sum

lemma fillTargets_conserve (high : ℚ) (date : ℕ) :
    ∀ (ts : List ProfitTarget) (rem : ℚ),
      ratioSum (fillTargets high date ts rem).1 =
        rem - (fillTargets high date ts rem).2.2 ∧
      targetsSum (fillTargets high date ts rem).2.1 =
        targetsSum ts - ratioSum (fillTargets high date ts rem).1 := by
  intro ts
  induction ts with
  | nil =>
    intro rem
    simp [fillTargets, ratioSum, targetsSum]
  | cons t ts ih =>
    intro rem
    rw [fillTargets]
    split
    · obtain ⟨h1, h2⟩ := ih (rem - t.sell_ratio)
      dsimp only
      constructor
      · simp only [ratioSum, List.map_cons, List.sum_cons] at h1 ⊢
        rw [h1]; ring
      · simp only [ratioSum, targetsSum, List.map_cons, List.sum_cons]
          at h1 h2 ⊢
        rw [h2]; ring
    · obtain ⟨h1, h2⟩ := ih rem
      dsimp only
      refine ⟨h1, ?_⟩
      simp only [ratioSum, targetsSum, List.map_cons, List.sum_cons]
        at h1 h2 ⊢
      rw [h2]; ring

lemma fillTargets_unfilled_mem (high : ℚ) (date : ℕ) :
    ∀ (ts : List ProfitTarget) (rem : ℚ) (t : ProfitTarget),
      t ∈ (fillTargets high date ts rem).2.1 → t ∈ ts := by
  intro ts
  induction ts with
  | nil =>
    intro rem t h
    simp [fillTargets] at h
  | cons u ts ih =>
    intro rem t h
    rw [fillTargets] at h
    by_cases hc : u.target_price ≤ high ∧ 0 < rem
    · rw [if_pos hc] at h
      exact List.mem_cons_of_mem u (ih _ t h)
    · rw [if_neg hc] at h
      rcases List.mem_cons.mp h with he | hm
      · exact he ▸ List.mem_cons_self u ts
      · exact List.mem_cons_of_mem u (ih _ t hm)

lemma fillTargets_last (high : ℚ) (date : ℕ) :
    ∀ (ts : List ProfitTarget) (rem : ℚ),
      ((fillTargets high date ts rem).1 = [] →
        (fillTargets high date ts rem).2.2 = rem) ∧
      (∀ l, (fillTargets high date ts rem).1.getLast? = some l →
        l.remaining = (fillTargets high date ts rem).2.2) := by
  intro ts
  induction ts with
  | nil =>
    intro rem
    constructor
    · intro _; rfl
    · intro l h; simp [fillTargets] at h
  | cons t ts ih =>
    intro rem
    rw [fillTargets]
    split
    · dsimp only
      constructor
      · intro h; simp at h
      · intro l h
        cases hr : (fillTargets high date ts (rem - t.sell_ratio)).1 with
        | nil =>
          rw [hr] at h
          simp only [List.getLast?_singleton, Option.some.injEq] at h
          rw [← h]
          exact ((ih (rem - t.sell_ratio)).1 hr).symm
        | cons a as =>
          rw [hr, List.getLast?_cons_cons] at h
          have := (ih (rem - t.sell_ratio)).2 l (by rw [hr]; exact h)
          exact this
    · dsimp only
      exact ih rem

lemma targetsSum_nonneg (ts : List ProfitTarget)
    (h : ∀ t ∈ ts, 0 ≤ t.sell_ratio) : 0 ≤ targetsSum ts := by
  refine List.sum_nonneg ?_
  intro x hx
  obtain ⟨t, ht, rfl⟩ := List.mem_map.mp hx
  exact h t ht

lemma ratioSum_append (a b : List PositionSell) :
    ratioSum (a ++ b) = ratioSum a + ratioSum b := by
  simp [ratioSum]

lemma simulate_conserve (sb : ℚ) :
    ∀ (bars : List Bar) (ts : List ProfitTarget) (rem : ℚ),
      (∀ t ∈ ts, 0 ≤ t.sell_ratio) → targetsSum ts ≤ rem →
      ratioSum (simulate sb bars ts rem) ≤ rem ∧
      ∀ l, (simulate sb bars ts rem).getLast? = some l →
        l.remaining = rem - ratioSum (simulate sb bars ts rem) := by
  intro bars
  induction bars with
  | nil =>
    intro ts rem hnn hsum
    have h0 : (0 : ℚ) ≤ rem := le_trans (targetsSum_nonneg ts hnn) hsum
    constructor
    · simpa [simulate, ratioSum] using h0
    · intro l h; simp [simulate] at h
  | cons b rest ih =>
    intro ts rem hnn hsum
    have h0 : (0 : ℚ) ≤ rem := le_trans (targetsSum_nonneg ts hnn) hsum
    rw [simulate]
    by_cases hr : rem ≤ 0
    · rw [if_pos hr]
      constructor
      · simpa [ratioSum] using h0
      · intro l h; simp at h
    · rw [if_neg hr]
      by_cases hs : b.close ≤ sb
      · rw [if_pos hs]
        constructor
        · simp [ratioSum]
        · intro l h
          simp only [List.getLast?_singleton, Option.some.injEq] at h
          rw [← h]
          simp [ratioSum]
      · rw [if_neg hs]
        dsimp only
        obtain ⟨hA, hB⟩ := fillTargets_conserve b.high b.date ts rem
        have hnn' : ∀ t ∈ (fillTargets b.high b.date ts rem).2.1,
            0 ≤ t.sell_ratio := fun t ht =>
          hnn t (fillTargets_unfilled_mem b.high b.date ts rem t ht)
        have hsub : targetsSum (fillTargets b.high b.date ts rem).2.1 ≤
            (fillTargets b.high b.date ts rem).2.2 := by
          rw [hB, hA]; linarith
        obtain ⟨ihS, ihL⟩ := ih (fillTargets b.high b.date ts rem).2.1
          (fillTargets b.high b.date ts rem).2.2 hnn' hsub
        rw [ratioSum_append]
        constructor
        · linarith
        · intro l h
          cases hrec : simulate sb rest (fillTargets b.high b.date ts rem).2.1
              (fillTargets b.high b.date ts rem).2.2 with
          | nil =>
            rw [hrec, List.append_nil] at h
            have hl := (fillTargets_last b.high b.date ts rem).2 l h
            have hz : ratioSum ([] : List PositionSell) = 0 := rfl
            rw [hl, hz]
            linarith
          | cons a as =>
            rw [hrec, List.getLast?_append_of_ne_nil _ (by simp)] at h
            have hl := ihL l (by rw [hrec]; exact h)
            rw [hrec] at hl
            rw [hl]
            linarith

/-- C4: for every simulation run started with `remaining = 1` on a valid
ladder (non-negative ratios summing to at most 1, the static check of spec
§4.4), the sum of `ratio` over all emitted sells is at most 1, the
`remaining` field of the last emitted sell equals 1 minus the sum of all
emitted ratios, and once `remaining` reaches 0 no further sells are
emitted. -/
theorem C4_position_conservation (sb : ℚ) (bars : List Bar)
    (ts : List ProfitTarget) (hnn : ∀ t ∈ ts, 0 ≤ t.sell_ratio)
    (hsum : targetsSum ts ≤ 1) :
    ratioSum (simulate sb bars ts 1) ≤ 1 ∧
    (∀ l, (simulate sb bars ts 1).getLast? = some l →
      l.remaining = 1 - ratioSum (simulate sb bars ts 1)) ∧
    (∀ bars2 ts2, simulate sb bars2 ts2 0 = []) := by
  obtain ⟨h1, h2⟩ := simulate_conserve sb bars ts 1 hnn hsum
  refine ⟨h1, h2, ?_⟩
  intro bars2 ts2
  cases bars2 with
  | nil => rfl
  | cons b rest => rw [simulate, if_pos le_rfl]

/-- A concrete one-level ladder used by witness theorems (full liquidation at
price 105, one ATR above an entry of 100). -/
def demoTargets : List ProfitTarget :=
  [⟨1, 105, 1 / 20, 1, 1⟩]

/-- Witness for C4 on the concrete bar list and ladder. -/
theorem C4_position_conservation_witness :
    (∀ t ∈ demoTargets, 0 ≤ t.sell_ratio) ∧ targetsSum demoTargets ≤ 1 ∧
    (ratioSum (simulate (8 : ℚ) demoBars demoTargets 1) ≤ 1 ∧
    (∀ l, (simulate (8 : ℚ) demoBars demoTargets 1).getLast? = some l →
      l.remaining = 1 - ratioSum (simulate (8 : ℚ) demoBars demoTargets 1)) ∧
    (∀ bars2 ts2, simulate (8 : ℚ) bars2 ts2 0 = [])) :=
  ⟨by simp [demoTargets], by simp [targetsSum, demoTargets],
    C4_position_conservation (8 : ℚ) demoBars demoTargets
      (by simp [demoTargets]) (by simp [targetsSum, demoTargets])⟩

/-- Modelled from the spec: the ProfitTargetPlanner (spec §4.4, absent
backend).  From a template of `(atr_multiple, sell_ratio)` pairs it
materializes prices: `target_price = entry_price + atr_multiple *
atr_at_entry`, `pct_from_entry = (target_price - entry_price) /
entry_price`; the first level's ratio is overridden by `first_tp_ratio`. -/
def planTargets (entry_price atr_at_entry tp1 : ℚ)
    (template : List (ℚ × ℚ)) : List ProfitTarget :=
  template.enum.map fun p =>
    ⟨p.1 + 1, entry_price + p.2.1 * atr_at_entry,
      (entry_price + p.2.1 * atr_at_entry - entry_price) / entry_price,
      p.2.1,
      if p.1 = 0 then tp1 else p.2.2⟩

/-- The backend's validated exit-strategy parameters (spec §6 optional
input contract). -/
structure ExitParams where
  trade_type : String
  entry_price : ℚ
  entry_date : String
  first_tp_ratio : ℚ
deriving Repr, DecidableEq

/-- Modelled from the spec: exit-strategy parameters count as supplied when
all four optional query parameters are present (spec §6). -/
def exitParamsOf (q : QueryParams) : Option ExitParams :=
  match q.trade_type, q.entry_price, q.entry_date, q.first_tp_ratio with
  | some tt, some ep, some ed, some ftr => some ⟨tt, ep, ed, ftr⟩
  | _, _, _, _ => none

/-- The exit-strategy portion of the response (spec §3 `ExitStrategyResult`,
abridged to the computed fields the claims quantify over). -/
structure ExitStrategyResult where
  trade_type : String
  entry_price : ℚ
  stop_loss_price : ℚ
  first_tp_ratio : ℚ
  profit_targets : List ProfitTarget
  sells : List PositionSell
deriving Repr, DecidableEq

/-- The per-request response (spec §6 output contract): the per-bar stop
series is always present, the exit-strategy portion optional. -/
structure AnalyzeResponse where
  stop_prices : List (Option ℚ)
  exit_strategy : Option ExitStrategyResult
deriving Repr, DecidableEq

/-- Modelled from the spec: the per-request orchestration (absent backend
`analyze_stock`).  The ATR/trailing-stop portion is always computed; the
ProfitTargetPlanner and ExitSimulator run only when the exit-strategy
parameters are supplied (spec §2, §6); an entry date matching no bar leaves
the exit portion omitted while the ATR portion is still returned (spec §7).
`dateOf` abstracts date-string decoding and `templateOf` the trade-type
ladder lookup (glue, out of scope per spec §1). -/
def analyzeService (period : ℕ) (mult : ℚ) (bars : List Bar)
    (dateOf : String → ℕ) (templateOf : String → List (ℚ × ℚ))
    (q : QueryParams) : Except EngineError AnalyzeResponse :=
  if bars.length < period + 1 then .error .insufficientData
  else .ok
    { stop_prices := (List.range bars.length).map (stopAt period mult bars),
      exit_strategy := (exitParamsOf q).bind fun p =>
        match bars.findIdx? (fun b => b.date == dateOf p.entry_date) with
        | none => none
        | some idx =>
          let atrE := (atrAt period bars idx).getD 0
          let sb := closeOf bars idx - atrE * mult
          let targets := planTargets p.entry_price atrE p.first_tp_ratio
            (templateOf p.trade_type)
          some ⟨p.trade_type, p.entry_price, sb, p.first_tp_ratio, targets,
            simulate sb (bars.drop (idx + 1)) targets 1⟩ }

/-- C6: the exit-strategy portion of the response is populated only when the
exit-strategy parameters are supplied, while the ATR/trailing-stop portion is
always produced; the frontend supplies them exactly when `tradeType` (which
`InputForm.tsx` only ever sets to null, 'A', 'M' or 'B'), a positive
`entryPrice` and a non-empty `entryDate` are all present; and otherwise the
request carries no exit-strategy parameters. -/
theorem C6_exit_strategy_gating (period : ℕ) (mult : ℚ) (bars : List Bar)
    (dateOf : String → ℕ) (templateOf : String → List (ℚ × ℚ))
    (q : QueryParams) (x : ExitStrategyInputs) (ticker : String) (days : ℕ)
    (interval : String) (hlen : period + 1 ≤ bars.length)
    (hdom : x.tradeType = none ∨ x.tradeType = some "A" ∨
      x.tradeType = some "M" ∨ x.tradeType = some "B") :
    (∃ r, analyzeService period mult bars dateOf templateOf q = .ok r ∧
      r.stop_prices =
        (List.range bars.length).map (stopAt period mult bars) ∧
      (exitParamsOf q = none → r.exit_strategy = none) ∧
      (∀ e, r.exit_strategy = some e → exitParamsOf q ≠ none) ∧
      (∀ p idx, exitParamsOf q = some p →
        bars.findIdx? (fun b => b.date == dateOf p.entry_date) = some idx →
        r.exit_strategy ≠ none)) ∧
    ((handleAnalyzeExitStrategy x).isSome = true ↔
      (x.tradeType ≠ none ∧ (∃ ep, x.entryPrice = some ep ∧ 0 < ep) ∧
        x.entryDate ≠ "")) ∧
    (handleAnalyzeExitStrategy x = none →
      (analyzeStock ticker period mult days interval none).trade_type
          = none ∧
      (analyzeStock ticker period mult days interval none).entry_price
          = none ∧
      (analyzeStock ticker period mult days interval none).entry_date
          = none ∧
      (analyzeStock ticker period mult days interval none).first_tp_ratio
          = none ∧
      exitParamsOf (analyzeStock ticker period mult days interval none)
          = none) := by
  refine ⟨?_, ?_, ?_⟩
  · refine ⟨_, by rw [analyzeService, if_neg (not_lt.mpr hlen)], rfl,
      ?_, ?_, ?_⟩
    · intro h
      simp only [h, Option.none_bind]
    · intro e he hnone
      rw [hnone] at he
      simp at he
    · intro p idx hp hidx
      simp only [hp, Option.some_bind, hidx]
      simp
  · rw [handleAnalyzeExitStrategy]
    by_cases hc : truthyStr x.tradeType = true ∧ truthyNum x.entryPrice = true
        ∧ 0 < x.entryPrice.getD 0 ∧ x.entryDate ≠ ""
    · rw [if_pos hc]
      obtain ⟨h1, h2, h3, h4⟩ := hc
      simp only [Option.isSome_some, true_iff]
      refine ⟨?_, ?_, h4⟩
      · intro hn
        rw [hn] at h1
        simp [truthyStr] at h1
      · cases hep : x.entryPrice with
        | none => rw [hep] at h2; simp [truthyNum] at h2
        | some ep =>
          rw [hep, Option.getD_some] at h3
          exact ⟨ep, rfl, h3⟩
    · rw [if_neg hc]
      simp only [Option.isSome_none, Bool.false_eq_true, false_iff]
      rintro ⟨ha, ⟨ep, hep, hpos⟩, hd⟩
      refine hc ⟨?_, ?_, ?_, hd⟩
      · rcases hdom with h | h | h | h
        · exact absurd h ha
        all_goals rw [h]; rfl
      · rw [hep]
        simp only [truthyNum, bne_iff_ne, ne_eq, decide_eq_true_eq]
        exact hpos.ne'
      · rw [hep, Option.getD_some]
        exact hpos
  · intro _
    exact ⟨rfl, rfl, rfl, rfl, rfl⟩

/-- Witness for C6 at a concrete request without exit parameters and a
concrete form input selecting trade type A. -/
theorem C6_exit_strategy_gating_witness :
    2 + 1 ≤ demoBars.length ∧
    ((⟨some "A", some 100, "2024-01-02", 1⟩ :
        ExitStrategyInputs).tradeType = none ∨
      (⟨some "A", some 100, "2024-01-02", 1⟩ :
        ExitStrategyInputs).tradeType = some "A" ∨
      (⟨some "A", some 100, "2024-01-02", 1⟩ :
        ExitStrategyInputs).tradeType = some "M" ∨
      (⟨some "A", some 100, "2024-01-02", 1⟩ :
        ExitStrategyInputs).tradeType = some "B") ∧
    ((∃ r, analyzeService 2 (2 : ℚ) demoBars (fun _ => 0) (fun _ => [])
        ⟨"AAPL", 2, 2, 365, "1d", none, none, none, none⟩ = .ok r ∧
      r.stop_prices =
        (List.range demoBars.length).map (stopAt 2 (2 : ℚ) demoBars) ∧
      (exitParamsOf ⟨"AAPL", 2, 2, 365, "1d", none, none, none, none⟩
          = none → r.exit_strategy = none) ∧
      (∀ e, r.exit_strategy = some e →
        exitParamsOf ⟨"AAPL", 2, 2, 365, "1d", none, none, none, none⟩
          ≠ none) ∧
      (∀ p idx,
        exitParamsOf ⟨"AAPL", 2, 2, 365, "1d", none, none, none, none⟩
          = some p →
        demoBars.findIdx? (fun b => b.date == (fun _ => 0) p.entry_date)
          = some idx →
        r.exit_strategy ≠ none)) ∧
    ((handleAnalyzeExitStrategy
        ⟨some "A", some 100, "2024-01-02", 1⟩).isSome = true ↔
      ((⟨some "A", some 100, "2024-01-02", 1⟩ :
          ExitStrategyInputs).tradeType ≠ none ∧
        (∃ ep, (⟨some "A", some 100, "2024-01-02", 1⟩ :
          ExitStrategyInputs).entryPrice = some ep ∧ 0 < ep) ∧
        (⟨some "A", some 100, "2024-01-02", 1⟩ :
          ExitStrategyInputs).entryDate ≠ "")) ∧
    (handleAnalyzeExitStrategy ⟨some "A", some 100, "2024-01-02", 1⟩
        = none →
      (analyzeStock "AAPL" 2 (2 : ℚ) 365 "1d" none).trade_type = none ∧
      (analyzeStock "AAPL" 2 (2 : ℚ) 365 "1d" none).entry_price = none ∧
      (analyzeStock "AAPL" 2 (2 : ℚ) 365 "1d" none).entry_date = none ∧
      (analyzeStock "AAPL" 2 (2 : ℚ) 365 "1d" none).first_tp_ratio
          = none ∧
      exitParamsOf (analyzeStock "AAPL" 2 (2 : ℚ) 365 "1d" none)
          = none)) :=
  ⟨by decide, Or.inr (Or.inl rfl),
    C6_exit_strategy_gating 2 (2 : ℚ) demoBars (fun _ => 0) (fun _ => [])
      ⟨"AAPL", 2, 2, 365, "1d", none, none, none, none⟩
      ⟨some "A", some 100, "2024-01-02", 1⟩ "AAPL" 365 "1d"
      (by decide) (Or.inr (Or.inl rfl))⟩

end TrailingStopVisualizer
